import Mathlib

/-!
Verification of the tfjs instrumentation layer: the kernel profiler
(`tfjs-core/src/profiler.ts`) and the benchmark harness (the `time`
function of the webgpu ops benchmark suite).

The embedding models JavaScript numbers that can be NaN or infinite by an
explicit inductive type, promises by explicit resolution parameters
(whether / with what a pending value resolves), and the cooperative
scheduling of the fire-and-forget background tasks by pure functions that
compute the eventual list of emitted log records.
-/

/-- A JavaScript number as observed by the profiler's validation: either a
finite value (modelled as a rational) or one of the non-finite values. -/
inductive JSNumber : Type
  | nan : JSNumber
  | posInf : JSNumber
  | negInf : JSNumber
  | finite : ℚ → JSNumber
deriving DecidableEq, Repr

/-- JavaScript `isNaN` on a number. -/
def jsIsNaN : JSNumber → Bool
  | JSNumber.nan => true
  | _ => false

/-- JavaScript `isFinite` on a number. -/
def jsIsFinite : JSNumber → Bool
  | JSNumber.finite _ => true
  | _ => false

/-- The condition tested element-wise by `checkComputationForErrors`:
`isNaN(num) || !isFinite(num)`. -/
def badValue (v : JSNumber) : Bool :=
  jsIsNaN v || !jsIsFinite v

/-- The error signalled by `ProfilerException`: its message string
`The result of the 'name' is num.` carries the kernel name and the
offending value, which we record as the two fields. -/
structure ComputationError : Type where
  kernelName : String
  offendingValue : JSNumber
deriving DecidableEq, Repr

/-- The element-scanning loop of `checkComputationForErrors`: walk the
values in index order and throw on the first NaN / non-finite one. -/
def checkLoop (name : String) : List JSNumber → Except ComputationError Unit
  | [] => Except.ok ()
  | v :: rest =>
      if jsIsNaN v || !jsIsFinite v then
        Except.error { kernelName := name, offendingValue := v }
      else
        checkLoop name rest

/-- `checkComputationForErrors(vals, dtype, name)` from profiler.ts: a
no-op unless `dtype === 'float32'`, otherwise scan for NaN or non-finite
elements and throw a `ProfilerException` on the first one. -/
def checkComputationForErrors (vals : List JSNumber) (dtype : String)
    (name : String) : Except ComputationError Unit :=
  if dtype ≠ "float32" then
    Except.ok ()
  else
    checkLoop name vals

lemma badValue_true_iff (v : JSNumber) :
    badValue v = true ↔ (jsIsNaN v = true ∨ jsIsFinite v = false) := by
  cases v <;> simp [badValue, jsIsNaN, jsIsFinite]

lemma badValue_false_iff (v : JSNumber) :
    badValue v = false ↔ (jsIsNaN v = false ∧ jsIsFinite v = true) := by
  cases v <;> simp [badValue, jsIsNaN, jsIsFinite]

lemma checkLoop_cond_eq (v : JSNumber) : (jsIsNaN v || !jsIsFinite v) = badValue v := rfl

lemma checkLoop_error_iff (name : String) (vals : List JSNumber) :
    (∃ e, checkLoop name vals = Except.error e) ↔ ∃ v ∈ vals, badValue v = true := by
  induction vals with
  | nil => simp [checkLoop]
  | cons v rest ih =>
      rw [show checkLoop name (v :: rest) =
            (if badValue v = true then
              Except.error { kernelName := name, offendingValue := v }
            else checkLoop name rest) from by rw [checkLoop, checkLoop_cond_eq]]
      by_cases hv : badValue v = true
      · simp [hv]
      · have hv' : badValue v = false := by simpa using hv
        rw [if_neg hv]
        simp only [List.mem_cons]
        rw [ih]
        constructor
        · rintro ⟨w, hw, hbad⟩
          exact ⟨w, Or.inr hw, hbad⟩
        · rintro ⟨w, hw | hw, hbad⟩
          · rw [hw] at hbad
            rw [hbad] at hv'
            cases hv'
          · exact ⟨w, hw, hbad⟩

lemma checkLoop_first_error (name : String) (vals : List JSNumber)
    (h : ∃ v ∈ vals, badValue v = true) :
    ∃ i, ∃ hi : i < vals.length,
      checkLoop name vals =
        Except.error { kernelName := name, offendingValue := vals.get ⟨i, hi⟩ } ∧
      badValue (vals.get ⟨i, hi⟩) = true ∧
      ∀ v ∈ vals.take i, badValue v = false := by
  induction vals with
  | nil => simp at h
  | cons v rest ih =>
      have hstep : checkLoop name (v :: rest) =
          (if badValue v = true then
            Except.error { kernelName := name, offendingValue := v }
          else checkLoop name rest) := by
        rw [checkLoop, checkLoop_cond_eq]
      by_cases hv : badValue v = true
      · refine ⟨0, by simp, ?_, ?_, ?_⟩
        · rw [hstep, if_pos hv]
          rfl
        · simpa using hv
        · simp
      · have hv' : badValue v = false := by simpa using hv
        have hrest : ∃ w ∈ rest, badValue w = true := by
          rcases h with ⟨w, hw, hbad⟩
          rcases List.mem_cons.mp hw with hw | hw
          · rw [hw] at hbad
            rw [hbad] at hv'
            cases hv'
          · exact ⟨w, hw, hbad⟩
        rcases ih hrest with ⟨i, hi, heq, hbad, hbefore⟩
        refine ⟨i + 1, by simpa using Nat.succ_lt_succ hi, ?_, ?_, ?_⟩
        · rw [hstep, if_neg hv]
          simpa using heq
        · simpa using hbad
        · intro w hw
          rcases List.mem_cons.mp (by simpa using hw : w ∈ v :: rest.take i) with hw' | hw'
          · rw [hw']
            exact hv'
          · exact hbefore w hw'

/-- Claim C2: `checkComputationForErrors(vals, dtype, name)` signals a
`ComputationError` if and only if `dtype` is `'float32'` and at least one
element of `vals` is NaN or not finite; every non-float32 dtype returns
without error regardless of the values, and a float32 array of finite
values returns without error. -/
theorem check_signals_iff_float32_nonfinite (vals : List JSNumber)
    (dtype : String) (name : String) :
    (∃ e, checkComputationForErrors vals dtype name = Except.error e) ↔
      (dtype = "float32" ∧ ∃ v ∈ vals, (jsIsNaN v = true ∨ jsIsFinite v = false)) := by
  unfold checkComputationForErrors
  by_cases hd : dtype = "float32"
  · simp only [hd, ne_eq, not_true_eq_false, if_false, true_and]
    rw [checkLoop_error_iff]
    constructor
    · rintro ⟨v, hv, hbad⟩
      exact ⟨v, hv, (badValue_true_iff v).mp hbad⟩
    · rintro ⟨v, hv, hbad⟩
      exact ⟨v, hv, (badValue_true_iff v).mpr hbad⟩
  · simp [hd]

/-- Claim C3: on a float32 array with at least one NaN or non-finite
element, `checkComputationForErrors` produces exactly one error (the
`Except` result carries a single `ComputationError`), it names the
invoking kernel, it carries the offending value, and the offending value
is the first bad element in index order (all elements before it are
finite non-NaN). -/
theorem check_first_offending_value (vals : List JSNumber) (name : String)
    (h : ∃ v ∈ vals, jsIsNaN v = true ∨ jsIsFinite v = false) :
    ∃ i, ∃ hi : i < vals.length,
      checkComputationForErrors vals "float32" name =
        Except.error { kernelName := name, offendingValue := vals.get ⟨i, hi⟩ } ∧
      (jsIsNaN (vals.get ⟨i, hi⟩) = true ∨ jsIsFinite (vals.get ⟨i, hi⟩) = false) ∧
      ∀ v ∈ vals.take i, jsIsNaN v = false ∧ jsIsFinite v = true := by
  have h' : ∃ v ∈ vals, badValue v = true := by
    rcases h with ⟨v, hv, hbad⟩
    exact ⟨v, hv, (badValue_true_iff v).mpr hbad⟩
  rcases checkLoop_first_error name vals h' with ⟨i, hi, heq, hbad, hbefore⟩
  refine ⟨i, hi, ?_, ?_, ?_⟩
  · simpa [checkComputationForErrors] using heq
  · exact (badValue_true_iff _).mp hbad
  · intro v hv
    exact (badValue_false_iff v).mp (hbefore v hv)

/-- Example values for the C3 witness: one finite element followed by a
NaN and an infinity. -/
def exampleVals : List JSNumber :=
  [JSNumber.finite 7, JSNumber.nan, JSNumber.posInf]

/-- Witness for C3 at a concrete input: in `[7, NaN, ∞]` with kernel name
`mul`, the error reports kernel `mul` and the first offending value, with
every element before it finite. -/
theorem check_first_offending_value_witness :
    ∃ i, ∃ hi : i < exampleVals.length,
      checkComputationForErrors exampleVals "float32" "mul" =
        Except.error { kernelName := "mul", offendingValue := exampleVals.get ⟨i, hi⟩ } ∧
      (jsIsNaN (exampleVals.get ⟨i, hi⟩) = true ∨ jsIsFinite (exampleVals.get ⟨i, hi⟩) = false) ∧
      ∀ v ∈ exampleVals.take i, jsIsNaN v = false ∧ jsIsFinite v = true :=
  check_first_offending_value exampleVals "mul" ⟨JSNumber.nan, by decide, by decide⟩

/-- A tensor as the profiler observes it: a declared dtype string, a shape
(`shape.length` is the rank, the product of the dims the size), and the
values that its asynchronous `data()` accessor resolves to. -/
structure JSTensor : Type where
  dtype : String
  shape : List Nat
  vals : List JSNumber
deriving DecidableEq, Repr

/-- Rank of a tensor: the length of its shape. -/
def JSTensor.rank (t : JSTensor) : Nat := t.shape.length

/-- Size of a tensor: the product of its dimensions. -/
def JSTensor.size (t : JSTensor) : Nat := t.shape.prod

/-- The `T | Tensor[]` result of a kernel thunk: the `Array.isArray`
test distinguishes a single tensor from an array of tensors. -/
inductive RepResult (T : Type) : Type
  | single : T → RepResult T
  | many : List T → RepResult T
deriving DecidableEq, Repr

/-- Normalisation `Array.isArray(result) ? result : [result]` used by both
the profiler and the benchmark harness. -/
def normalizeResult {T : Type} : RepResult T → List T
  | RepResult.single t => [t]
  | RepResult.many ts => ts

/-- The timing value produced by the backend timer:
`{ kernelMs, getExtraProfileInfo? }`, with the optional producer of extra
diagnostic text modelled by an `Option String`. -/
structure KernelTiming : Type where
  kernelMs : ℚ
  getExtraProfileInfo : Option String
deriving DecidableEq, Repr

/-- Dangling-promise extra-info extraction of profileKernel: start from
the empty string, call the producer only when it is non-null. -/
def extraInfoOf (timing : KernelTiming) : String :=
  match timing.getExtraProfileInfo with
  | none => ""
  | some s => s

/-- Modelled from the spec: `util.rightPad` (the source of `util.ts` is
not part of the analysed files). The spec requires each column to be
left-justified and padded with spaces to a fixed minimum width, which a
right-pad that never truncates realises. -/
def rightPad (a : String) (size : Nat) : String :=
  if size ≤ a.length then a
  else a ++ String.mk (List.replicate (size - a.length) ' ')

/-- JavaScript array-to-string rendering of a shape: the dimensions joined
by commas with no brackets. -/
def shapeToString (shape : List Nat) : String :=
  String.intercalate "," (shape.map toString)

/-- One segment of the input-shapes description of `logKernelProfile`:
`name: <rank>D <shape-or-empty-if-rank-0> `. -/
def inputSegment (name : String) (shape : List Nat) : String :=
  name ++ ": " ++ toString shape.length ++ "D " ++
    (if shape.length > 0 then shapeToString shape else "") ++ " "

/-- The input-shapes description: the segments of all inputs accumulated
in iteration order into one string. -/
def inputShapesDescription (inputs : List (String × JSTensor)) : String :=
  inputs.foldl (fun acc p => acc ++ inputSegment p.1 p.2.shape) ""

/-- The structured record `Logger.logKernelProfile` emits: one field per
`%c`-column of the emitted line. `numToString` stands for the JavaScript
decimal rendering of a number used by the template literal. -/
structure LogRecord : Type where
  paddedName : String
  time : String
  rankAndShape : String
  size : Nat
  inputsDesc : String
  extraInfo : String
deriving DecidableEq, Repr

/-- `Logger.logKernelProfile(name, result, vals, timeMs, inputs,
extraInfo)` from profiler.ts, returning the emitted record. The `vals`
argument is received but not used in the formatted line, as in the
source. -/
def logKernelProfile (numToString : ℚ → String) (name : String)
    (result : JSTensor) (_vals : List JSNumber) (timeMs : ℚ)
    (inputs : List (String × JSTensor)) (extraInfo : String) : LogRecord :=
  { paddedName := rightPad name 25
    time := rightPad (numToString timeMs ++ "ms") 9
    rankAndShape := toString result.rank ++ "D " ++ rightPad (shapeToString result.shape) 14
    size := result.size
    inputsDesc := inputShapesDescription inputs
    extraInfo := extraInfo }

/-- The background task profileKernel registers for one output `r`:
`r.data().then(vals => { check…; timer.then(timing => log…) })`.
`dataResolves` says whether the materialization of `r` ever resolves and
`timing` is `some` exactly when the backend timer ever resolves. The
returned list holds the log records eventually emitted for `r`: none when
materialization never resolves, none when validation throws (the inner
`timer.then` is then never reached), none when the timing never resolves. -/
def outputEmissions (numToString : ℚ → String) (timing : Option KernelTiming)
    (dataResolves : JSTensor → Bool) (name : String)
    (inputs : List (String × JSTensor)) (r : JSTensor) : List LogRecord :=
  if dataResolves r then
    match checkComputationForErrors r.vals r.dtype name with
    | Except.error _ => []
    | Except.ok _ =>
        match timing with
        | none => []
        | some tm =>
            [logKernelProfile numToString name r r.vals tm.kernelMs inputs (extraInfoOf tm)]
  else []

/-- `Profiler.profileKernel(name, inputs, f)` from profiler.ts.
`timerCalls` is the number of times the backend timer invokes the wrapped
work function before returning: each invocation assigns `result = f()`.
When it never does, `result` stays undefined and the synchronous
`results.forEach` dereferences `undefined.data()`, throwing a TypeError.
Otherwise the call returns `f()` together with the eventual emissions of
the per-output background tasks. -/
def profileKernel (numToString : ℚ → String) (timerCalls : Nat)
    (timing : Option KernelTiming) (dataResolves : JSTensor → Bool)
    (name : String) (inputs : List (String × JSTensor))
    (f : Unit → RepResult JSTensor) :
    Except String (RepResult JSTensor × List LogRecord) :=
  if timerCalls = 0 then
    Except.error "TypeError: result is undefined"
  else
    let result := f ()
    let results := normalizeResult result
    Except.ok (result,
      (results.map (outputEmissions numToString timing dataResolves name inputs)).flatten)

/-- Claim C1: whenever the backend timer invokes the wrapped work function
synchronously at least once before returning, `profileKernel` returns
exactly the value `f` returned, for every resolution behaviour of the
materialization and of the timing, so the return value is unaffected by
whether validation or logging ever run. -/
theorem profileKernel_returns_thunk_value (numToString : ℚ → String)
    (timerCalls : Nat) (timing : Option KernelTiming)
    (dataResolves : JSTensor → Bool) (name : String)
    (inputs : List (String × JSTensor)) (f : Unit → RepResult JSTensor)
    (h : 1 ≤ timerCalls) :
    Except.map Prod.fst
        (profileKernel numToString timerCalls timing dataResolves name inputs f) =
      Except.ok (f ()) := by
  have h0 : timerCalls ≠ 0 := Nat.one_le_iff_ne_zero.mp h
  simp [profileKernel, h0, Except.map]

/-- Witness for C1: a concrete profile of a single-tensor thunk with a
stalled materialization backend (nothing resolves) still returns the
thunk's tensor. -/
theorem profileKernel_returns_thunk_value_witness :
    Except.map Prod.fst
        (profileKernel (fun _ => "") 1 none (fun _ => false) "add" []
          (fun _ => RepResult.single { dtype := "float32", shape := [1], vals := [JSNumber.finite 5] })) =
      Except.ok (RepResult.single { dtype := "float32", shape := [1], vals := [JSNumber.finite 5] }) :=
  profileKernel_returns_thunk_value (fun _ => "") 1 none (fun _ => false) "add" []
    (fun _ => RepResult.single { dtype := "float32", shape := [1], vals := [JSNumber.finite 5] })
    (by decide)

/-- Claim C6: within one `profileKernel` invocation the emitted log
records are exactly the per-output background-task emissions of the
returned outputs, and for each output: a validation failure means zero
emissions for it, an unresolved timing means zero emissions for it, an
unresolved materialization means zero emissions for it, and any emission
implies that the output's values materialized, its validation ran and
passed, and the timing resolved. -/
theorem profileKernel_emission_order (numToString : ℚ → String)
    (timing : Option KernelTiming) (dataResolves : JSTensor → Bool)
    (name : String) (inputs : List (String × JSTensor)) (r : JSTensor) :
    (∀ timerCalls : Nat, ∀ f : Unit → RepResult JSTensor, timerCalls ≠ 0 →
      profileKernel numToString timerCalls timing dataResolves name inputs f =
        Except.ok (f (),
          ((normalizeResult (f ())).map
            (outputEmissions numToString timing dataResolves name inputs)).flatten)) ∧
    ((∃ e, checkComputationForErrors r.vals r.dtype name = Except.error e) →
      outputEmissions numToString timing dataResolves name inputs r = []) ∧
    (timing = none →
      outputEmissions numToString timing dataResolves name inputs r = []) ∧
    (dataResolves r = false →
      outputEmissions numToString timing dataResolves name inputs r = []) ∧
    (outputEmissions numToString timing dataResolves name inputs r ≠ [] →
      dataResolves r = true ∧
      checkComputationForErrors r.vals r.dtype name = Except.ok () ∧
      ∃ tm, timing = some tm) := by
  refine ⟨?_, ?_, ?_, ?_, ?_⟩
  · intro timerCalls f h0
    simp [profileKernel, h0]
  · rintro ⟨e, he⟩
    by_cases hd : dataResolves r
    · simp [outputEmissions, hd, he]
    · simp [outputEmissions, hd]
  · intro ht
    subst ht
    by_cases hd : dataResolves r
    · cases hc : checkComputationForErrors r.vals r.dtype name with
      | error e => simp [outputEmissions, hd, hc]
      | ok u => cases u; simp [outputEmissions, hd, hc]
    · simp [outputEmissions, hd]
  · intro hd
    simp [outputEmissions, hd]
  · intro hne
    by_cases hd : dataResolves r
    · refine ⟨hd, ?_⟩
      cases hc : checkComputationForErrors r.vals r.dtype name with
      | error e =>
          exact absurd (by simp [outputEmissions, hd, hc]) hne
      | ok u =>
          cases u
          refine ⟨rfl, ?_⟩
          cases ht : timing with
          | none =>
              rw [ht] at hne
              exact absurd (by simp [outputEmissions, hd, hc]) hne
          | some tm => exact ⟨tm, rfl⟩
    · have hd' : dataResolves r = false := by simpa using hd
      exact absurd (by simp [outputEmissions, hd']) hne

lemma rightPad_eq_append (a : String) (n : Nat) :
    rightPad a n = a ++ String.mk (List.replicate (n - a.length) ' ') := by
  unfold rightPad
  by_cases h : n ≤ a.length
  · rw [if_pos h, Nat.sub_eq_zero_of_le h, List.replicate_zero]
    apply String.ext
    rw [String.data_append]
    exact (List.append_nil a.data).symm
  · rw [if_neg h]

lemma rightPad_length (a : String) (n : Nat) :
    (rightPad a n).length = max a.length n := by
  rw [rightPad_eq_append, String.length_append]
  have hmk : (String.mk (List.replicate (n - a.length) ' ')).length = n - a.length := by
    rw [String.length_mk, List.length_replicate]
  rw [hmk]
  omega

lemma inputShapesDescription_append (ps : List (String × JSTensor)) (p : String × JSTensor) :
    inputShapesDescription (ps ++ [p]) =
      inputShapesDescription ps ++ inputSegment p.1 p.2.shape := by
  unfold inputShapesDescription
  rw [List.foldl_append]
  rfl

/-- Claim C8: the record emitted by `logKernelProfile` renders the kernel
name right-padded to a minimum width of 25 characters, the timing as the
string `<ms>ms` right-padded to a minimum width of 9 characters, the
output shape column padded to 14 characters after the rank, and the
input-shapes description as, per input in iteration order, the segment
`<name>: <rank>D <shape> ` (shape part empty at rank 0) with no separator
beyond each segment's trailing space. -/
theorem logKernelProfile_format (nts : ℚ → String) (name : String)
    (result : JSTensor) (vals : List JSNumber) (timeMs : ℚ)
    (inputs : List (String × JSTensor)) (extraInfo : String) :
    (logKernelProfile nts name result vals timeMs inputs extraInfo).paddedName =
        name ++ String.mk (List.replicate (25 - name.length) ' ') ∧
    (logKernelProfile nts name result vals timeMs inputs extraInfo).paddedName.length =
        max name.length 25 ∧
    (logKernelProfile nts name result vals timeMs inputs extraInfo).time =
        (nts timeMs ++ "ms") ++
          String.mk (List.replicate (9 - (nts timeMs ++ "ms").length) ' ') ∧
    (logKernelProfile nts name result vals timeMs inputs extraInfo).time.length =
        max (nts timeMs ++ "ms").length 9 ∧
    (logKernelProfile nts name result vals timeMs inputs extraInfo).rankAndShape =
        toString result.shape.length ++ "D " ++ rightPad (shapeToString result.shape) 14 ∧
    (rightPad (shapeToString result.shape) 14).length =
        max (shapeToString result.shape).length 14 ∧
    (logKernelProfile nts name result vals timeMs inputs extraInfo).inputsDesc =
        inputShapesDescription inputs ∧
    inputShapesDescription ([] : List (String × JSTensor)) = "" ∧
    (∀ ps : List (String × JSTensor), ∀ p : String × JSTensor,
      inputShapesDescription (ps ++ [p]) =
        inputShapesDescription ps ++ inputSegment p.1 p.2.shape) ∧
    (∀ nm : String, ∀ s : List Nat,
      inputSegment nm s =
        nm ++ ": " ++ toString s.length ++ "D " ++
          (if s.length > 0 then shapeToString s else "") ++ " ") := by
  refine ⟨?_, ?_, ?_, ?_, ?_, ?_, ?_, ?_, ?_, ?_⟩
  · rw [show (logKernelProfile nts name result vals timeMs inputs extraInfo).paddedName =
        rightPad name 25 from rfl]
    exact rightPad_eq_append name 25
  · rw [show (logKernelProfile nts name result vals timeMs inputs extraInfo).paddedName =
        rightPad name 25 from rfl]
    exact rightPad_length name 25
  · rw [show (logKernelProfile nts name result vals timeMs inputs extraInfo).time =
        rightPad (nts timeMs ++ "ms") 9 from rfl]
    exact rightPad_eq_append (nts timeMs ++ "ms") 9
  · rw [show (logKernelProfile nts name result vals timeMs inputs extraInfo).time =
        rightPad (nts timeMs ++ "ms") 9 from rfl]
    exact rightPad_length (nts timeMs ++ "ms") 9
  · rfl
  · exact rightPad_length (shapeToString result.shape) 14
  · rfl
  · rfl
  · exact inputShapesDescription_append
  · intro nm s
    rfl

/-- Observable events of one `measure` run of the benchmark harness:
an invocation of the per-rep work function with its repetition index (and
the outputs it produced), the await of the end-of-trial hook, the await
of a completion-proxy `data()` read, and a `dispose()` of the
accumulation set. -/
inductive HEvent (T : Type) : Type
  | repCall : Nat → List T → HEvent T
  | awaitHook : HEvent T
  | awaitData : T → HEvent T
  | disposeSet : List T → HEvent T
deriving DecidableEq, Repr

/-- Whether an event is a `dispose()` of the accumulation set. -/
def isDisposeEvent {T : Type} : HEvent T → Bool
  | HEvent.disposeSet _ => true
  | _ => false

/-- The mutable state of one `time` call: the `toDispose` accumulation
set, the `times` duration list, the number of `tf.util.now()` clock reads
made so far, and the trace of observable events. -/
structure HState (T : Type) : Type where
  toDispose : List T
  times : List ℚ
  clock : Nat
  trace : List (HEvent T)
deriving DecidableEq, Repr

/-- The initial state of a `time` call. -/
def initState {T : Type} : HState T :=
  { toDispose := [], times := [], clock := 0, trace := [] }

/-- The outputs one trial accumulates: for each repetition index in order,
the normalized result of `doRep`, concatenated. -/
def trialProduced {T : Type} (doRep : Nat → RepResult T) (reps : Nat) : List T :=
  ((List.range reps).map (fun r => normalizeResult (doRep r))).flatten

/-- The per-repetition events of one trial. -/
def trialEvents {T : Type} (doRep : Nat → RepResult T) (reps : Nat) : List (HEvent T) :=
  (List.range reps).map (fun r => HEvent.repCall r (normalizeResult (doRep r)))

/-- The value of the local `result` after the repetition loop: undefined
(`none`) when `reps = 0`, otherwise the result of the last repetition. -/
def lastResult {T : Type} (doRep : Nat → RepResult T) (reps : Nat) : Option (RepResult T) :=
  if reps = 0 then none else some (doRep (reps - 1))

/-- The expression `Array.isArray(result) ? result[0] : result` of the
default completion proxy: `none` when `result` is undefined or an empty
array, in which case `.data()` is called on `undefined` and throws. -/
def jsFirstElem {T : Type} : Option (RepResult T) → Option T
  | none => none
  | some (RepResult.single t) => some t
  | some (RepResult.many ts) => ts.head?

/-- The `trial` closure of `time`: run `doRep` for each repetition index,
accumulating every produced output into `toDispose`; then await the
end-of-trial hook when one was supplied, otherwise await `data()` on the
first element of the last result. When neither is possible the trial
throws a TypeError and the whole `time` call rejects, so the state of the
rejected call is dropped. -/
def runTrial {T : Type} (doRep : Nat → RepResult T) (endTrialSupplied : Bool)
    (reps : Nat) (st : HState T) : Except String (HState T) :=
  let produced := trialProduced doRep reps
  let evs := trialEvents doRep reps
  if endTrialSupplied then
    Except.ok { st with toDispose := st.toDispose ++ produced,
                        trace := st.trace ++ evs ++ [HEvent.awaitHook] }
  else
    match jsFirstElem (lastResult doRep reps) with
    | some t =>
        Except.ok { st with toDispose := st.toDispose ++ produced,
                            trace := st.trace ++ evs ++ [HEvent.awaitData t] }
    | none => Except.error "TypeError"

/-- The `dispose` closure of `time`: release every accumulated output and
clear the accumulation set. -/
def runDispose {T : Type} (st : HState T) : HState T :=
  { st with toDispose := [], trace := st.trace ++ [HEvent.disposeSet st.toDispose] }

/-- One iteration of the timed loop: read the clock, run a trial, read
the clock again and record the difference, then dispose the accumulation
set when `disposeAfterEachTrial` is set. `now k` is the value returned by
the `k`-th `tf.util.now()` read of this `time` call. -/
def runTimedTrial {T : Type} (doRep : Nat → RepResult T) (endTrialSupplied : Bool)
    (reps : Nat) (now : Nat → ℚ) (disposeAfterEachTrial : Bool) (st : HState T) :
    Except String (HState T) :=
  match runTrial doRep endTrialSupplied reps { st with clock := st.clock + 1 } with
  | Except.error e => Except.error e
  | Except.ok st1 =>
      let st2 : HState T :=
        { st1 with times := st1.times ++ [now st1.clock - now st.clock],
                   clock := st1.clock + 1 }
      Except.ok (if disposeAfterEachTrial then runDispose st2 else st2)

/-- The timed loop of `time`: `trials` iterations of `runTimedTrial`. -/
def timedLoop {T : Type} (doRep : Nat → RepResult T) (endTrialSupplied : Bool)
    (reps : Nat) (now : Nat → ℚ) (disposeAfterEachTrial : Bool) :
    Nat → HState T → Except String (HState T)
  | 0, st => Except.ok st
  | Nat.succ n, st =>
      match runTimedTrial doRep endTrialSupplied reps now disposeAfterEachTrial st with
      | Except.error e => Except.error e
      | Except.ok st1 => timedLoop doRep endTrialSupplied reps now disposeAfterEachTrial n st1

/-- `times.reduce((a, b) => a + b, 0)`. -/
def sumTimes (l : List ℚ) : ℚ := l.foldl (· + ·) 0

/-- `Math.min(...times)`: the least element, `none` standing for the
`Infinity` returned on an empty argument list. -/
def jsMin : List ℚ → Option ℚ
  | [] => none
  | x :: xs => some (xs.foldl min x)

/-- The two scalars the harness reports, along with the final state. -/
structure TimeOutcome (T : Type) : Type where
  final : HState T
  mean : ℚ
  minTime : Option ℚ
deriving Repr

/-- The benchmark-harness function `time(doRep, endTrial?,
disposeAfterEachTrial, trials, reps)` of the webgpu ops benchmark: one
warm-up trial whose accumulation is disposed, then the timed loop, then
the aggregation `mean = sum/trials` and `min = Math.min(...times)`. -/
def time {T : Type} (doRep : Nat → RepResult T) (endTrialSupplied : Bool)
    (disposeAfterEachTrial : Bool) (trials reps : Nat) (now : Nat → ℚ) :
    Except String (TimeOutcome T) :=
  match runTrial doRep endTrialSupplied reps initState with
  | Except.error e => Except.error e
  | Except.ok stw =>
      match timedLoop doRep endTrialSupplied reps now disposeAfterEachTrial trials
          (runDispose stw) with
      | Except.error e => Except.error e
      | Except.ok stf =>
          Except.ok { final := stf, mean := sumTimes stf.times / (trials : ℚ),
                      minTime := jsMin stf.times }

/-- The precondition under which a trial completes normally: an
end-of-trial hook was supplied, or the default completion proxy finds its
element. -/
def trialCompletes {T : Type} (doRep : Nat → RepResult T) (endTrialSupplied : Bool)
    (reps : Nat) : Prop :=
  endTrialSupplied = true ∨ (jsFirstElem (lastResult doRep reps)).isSome = true

lemma trialCompletes_iff {T : Type} (doRep : Nat → RepResult T) (endTrialSupplied : Bool)
    (reps : Nat) :
    trialCompletes doRep endTrialSupplied reps ↔
      (endTrialSupplied = true ∨ ∃ t, jsFirstElem (lastResult doRep reps) = some t) := by
  unfold trialCompletes
  rw [Option.isSome_iff_exists]

lemma runTrial_ok_of_completes {T : Type} (doRep : Nat → RepResult T)
    (endTrialSupplied : Bool) (reps : Nat)
    (h : trialCompletes doRep endTrialSupplied reps) (st : HState T) :
    ∃ c, runTrial doRep endTrialSupplied reps st =
        Except.ok { st with toDispose := st.toDispose ++ trialProduced doRep reps,
                            trace := st.trace ++ trialEvents doRep reps ++ [c] } ∧
      ((endTrialSupplied = true ∧ c = HEvent.awaitHook) ∨
       (endTrialSupplied = false ∧
        ∃ t, jsFirstElem (lastResult doRep reps) = some t ∧ c = HEvent.awaitData t)) := by
  cases hE : endTrialSupplied with
  | true =>
      refine ⟨HEvent.awaitHook, ?_, Or.inl ⟨rfl, rfl⟩⟩
      simp [runTrial]
  | false =>
      rcases (trialCompletes_iff doRep endTrialSupplied reps).mp h with hE' | ⟨t, ht⟩
      · rw [hE] at hE'
        cases hE'
      · refine ⟨HEvent.awaitData t, ?_, Or.inr ⟨rfl, t, ht, rfl⟩⟩
        simp [runTrial, ht]

lemma filter_dispose_trialEvents {T : Type} (doRep : Nat → RepResult T) (reps : Nat) :
    (trialEvents doRep reps).filter (fun e => isDisposeEvent e) = [] := by
  unfold trialEvents
  induction List.range reps with
  | nil => rfl
  | cons r rs ih => simp [List.filter, isDisposeEvent, ih]

lemma range_map_shift {α : Type} (g : Nat → α) (n : Nat) :
    (List.range (n + 1)).map g = g 0 :: (List.range n).map (fun t => g (t + 1)) := by
  rw [List.range_succ_eq_map, List.map_cons, List.map_map]
  rfl

lemma timedLoop_spec {T : Type} (doRep : Nat → RepResult T) (endTrialSupplied : Bool)
    (reps : Nat) (now : Nat → ℚ) (flag : Bool)
    (h : trialCompletes doRep endTrialSupplied reps) :
    ∀ n : Nat, ∀ st : HState T, ∃ st',
      timedLoop doRep endTrialSupplied reps now flag n st = Except.ok st' ∧
      st'.times = st.times ++
        (List.range n).map (fun t => now (st.clock + 2 * t + 1) - now (st.clock + 2 * t)) ∧
      st'.clock = st.clock + 2 * n ∧
      (∃ ext, st'.trace = st.trace ++ ext ∧
        (flag = false → ext.filter (fun e => isDisposeEvent e) = [])) ∧
      (flag = false →
        st'.toDispose = st.toDispose ++ (List.replicate n (trialProduced doRep reps)).flatten) := by
  intro n
  induction n with
  | zero =>
      intro st
      refine ⟨st, rfl, by simp, by simp, ⟨[], by simp, fun _ => rfl⟩, fun _ => by simp⟩
  | succ n ih =>
      intro st
      rcases runTrial_ok_of_completes doRep endTrialSupplied reps h
          { st with clock := st.clock + 1 } with ⟨c, hrun, hc⟩
      have hcnd : isDisposeEvent c = false := by
        rcases hc with ⟨_, hc⟩ | ⟨_, t, _, hc⟩ <;> rw [hc] <;> rfl
      set st1 : HState T :=
        { st with clock := st.clock + 1,
                  toDispose := st.toDispose ++ trialProduced doRep reps,
                  trace := st.trace ++ trialEvents doRep reps ++ [c] } with hst1
      set st2 : HState T :=
        { st1 with times := st1.times ++ [now st1.clock - now st.clock],
                   clock := st1.clock + 1 } with hst2
      have hstep : runTimedTrial doRep endTrialSupplied reps now flag st =
          Except.ok (if flag then runDispose st2 else st2) := by
        unfold runTimedTrial
        rw [hrun]
      set st3 : HState T := if flag then runDispose st2 else st2 with hst3
      have h3times : st3.times = st.times ++ [now (st.clock + 1) - now st.clock] := by
        cases flag <;> simp [hst3, runDispose, hst2, hst1]
      have h3clock : st3.clock = st.clock + 2 := by
        cases flag <;> simp [hst3, runDispose, hst2, hst1]
      rcases ih st3 with ⟨st', hloop, htimes, hclock, ⟨ext, htrace, hfilter⟩, hdisp⟩
      refine ⟨st', ?_, ?_, ?_, ?_, ?_⟩
      · show timedLoop doRep endTrialSupplied reps now flag (n + 1) st = Except.ok st'
        unfold timedLoop
        rw [hstep]
        exact hloop
      · rw [htimes, h3times, h3clock]
        rw [range_map_shift (fun t => now (st.clock + 2 * t + 1) - now (st.clock + 2 * t)) n]
        have harg : (fun t => now (st.clock + 2 + 2 * t + 1) - now (st.clock + 2 + 2 * t)) =
            (fun t => now (st.clock + 2 * (t + 1) + 1) - now (st.clock + 2 * (t + 1))) := by
          funext t
          have e1 : st.clock + 2 + 2 * t + 1 = st.clock + 2 * (t + 1) + 1 := by omega
          have e2 : st.clock + 2 + 2 * t = st.clock + 2 * (t + 1) := by omega
          rw [e1, e2]
        rw [harg]
        simp [List.append_assoc]
      · rw [hclock, h3clock]
        omega
      · cases hF : flag with
        | false =>
            have h3trace : st3.trace = st.trace ++ (trialEvents doRep reps ++ [c]) := by
              simp [hst3, hF, hst2, hst1, List.append_assoc]
            refine ⟨(trialEvents doRep reps ++ [c]) ++ ext, ?_, ?_⟩
            · rw [htrace, h3trace, List.append_assoc]
            · intro hff
              rw [List.filter_append, List.filter_append, filter_dispose_trialEvents,
                hfilter hF]
              simp [List.filter, hcnd]
        | true =>
            have h3trace : st3.trace = st.trace ++
                ((trialEvents doRep reps ++ [c]) ++ [HEvent.disposeSet st2.toDispose]) := by
              simp [hst3, hF, runDispose, hst2, hst1, List.append_assoc]
            refine ⟨((trialEvents doRep reps ++ [c]) ++ [HEvent.disposeSet st2.toDispose]) ++ ext,
              ?_, ?_⟩
            · rw [htrace, h3trace, List.append_assoc]
            · intro hff
              cases hff
      · intro hF
        have h3disp : st3.toDispose = st.toDispose ++ trialProduced doRep reps := by
          simp [hst3, hF, hst2, hst1]
        rw [hdisp hF, h3disp, List.replicate_succ, List.flatten_cons, List.append_assoc]

lemma foldl_add_shift (l : List ℚ) : ∀ a b : ℚ, l.foldl (· + ·) (a + b) = a + l.foldl (· + ·) b := by
  induction l with
  | nil => intro a b; rfl
  | cons c cs ih =>
      intro a b
      rw [List.foldl_cons, List.foldl_cons, add_assoc]
      exact ih a (b + c)

lemma sumTimes_cons (x : ℚ) (xs : List ℚ) : sumTimes (x :: xs) = x + sumTimes xs := by
  unfold sumTimes
  rw [List.foldl_cons]
  have : (0 : ℚ) + x = x + 0 := by ring
  rw [this, foldl_add_shift xs x 0]

lemma foldl_min_spec (xs : List ℚ) : ∀ x : ℚ,
    xs.foldl min x ∈ x :: xs ∧ ∀ y ∈ x :: xs, xs.foldl min x ≤ y := by
  induction xs with
  | nil =>
      intro x
      exact ⟨List.mem_singleton.mpr rfl, by intro y hy; rw [List.mem_singleton.mp hy]; rfl⟩
  | cons z zs ih =>
      intro x
      rw [List.foldl_cons]
      rcases ih (min x z) with ⟨hmem, hle⟩
      constructor
      · rcases List.mem_cons.mp hmem with hm | hm
        · rcases min_choice x z with hc | hc
          · rw [hm, hc]
            exact List.mem_cons_self x (z :: zs)
          · rw [hm, hc]
            exact List.mem_cons.mpr (Or.inr (List.mem_cons_self z zs))
        · exact List.mem_cons.mpr (Or.inr (List.mem_cons.mpr (Or.inr hm)))
      · intro y hy
        rcases List.mem_cons.mp hy with hy | hy
        · calc zs.foldl min (min x z) ≤ min x z := hle _ (List.mem_cons_self _ zs)
            _ ≤ x := min_le_left x z
            _ = y := (hy ▸ rfl)
        · rcases List.mem_cons.mp hy with hy | hy
          · calc zs.foldl min (min x z) ≤ min x z := hle _ (List.mem_cons_self _ zs)
              _ ≤ z := min_le_right x z
              _ = y := (hy ▸ rfl)
          · exact hle y (List.mem_cons.mpr (Or.inr hy))

lemma jsMin_spec (x : ℚ) (xs : List ℚ) :
    ∃ m, jsMin (x :: xs) = some m ∧ m ∈ x :: xs ∧ ∀ y ∈ x :: xs, m ≤ y := by
  rcases foldl_min_spec xs x with ⟨hmem, hle⟩
  exact ⟨xs.foldl min x, rfl, hmem, hle⟩

lemma length_mul_min_le_sumTimes (l : List ℚ) (m : ℚ) (hub : ∀ x ∈ l, m ≤ x) :
    (l.length : ℚ) * m ≤ sumTimes l := by
  induction l with
  | nil =>
      rw [show sumTimes [] = 0 from rfl]
      simp
  | cons x xs ih =>
      rw [sumTimes_cons, List.length_cons]
      have hx : m ≤ x := hub x (List.mem_cons_self x xs)
      have hxs : (xs.length : ℚ) * m ≤ sumTimes xs :=
        ih (fun y hy => hub y (List.mem_cons.mpr (Or.inr hy)))
      push_cast
      nlinarith [hx, hxs]

lemma isDisposeEvent_completion {T : Type} (doRep : Nat → RepResult T)
    (endTrialSupplied : Bool) (reps : Nat) (c : HEvent T)
    (hc : (endTrialSupplied = true ∧ c = HEvent.awaitHook) ∨
      (endTrialSupplied = false ∧
       ∃ t, jsFirstElem (lastResult doRep reps) = some t ∧ c = HEvent.awaitData t)) :
    isDisposeEvent c = false := by
  rcases hc with ⟨_, hc⟩ | ⟨_, t, _, hc⟩ <;> rw [hc] <;> rfl

lemma time_spec {T : Type} (doRep : Nat → RepResult T) (endTrialSupplied : Bool)
    (flag : Bool) (trials reps : Nat) (now : Nat → ℚ)
    (h : trialCompletes doRep endTrialSupplied reps) :
    ∃ out : TimeOutcome T,
      time doRep endTrialSupplied flag trials reps now = Except.ok out ∧
      out.final.times =
        (List.range trials).map (fun t => now (2 * t + 1) - now (2 * t)) ∧
      out.mean = sumTimes out.final.times / (trials : ℚ) ∧
      out.minTime = jsMin out.final.times ∧
      (∃ c ext, out.final.trace =
          ((trialEvents doRep reps ++ [c]) ++
            [HEvent.disposeSet (trialProduced doRep reps)]) ++ ext ∧
        isDisposeEvent c = false ∧
        (flag = false → ext.filter (fun e => isDisposeEvent e) = [])) ∧
      (flag = false →
        out.final.toDispose = (List.replicate trials (trialProduced doRep reps)).flatten) := by
  rcases runTrial_ok_of_completes doRep endTrialSupplied reps h initState with ⟨c, hrun, hc⟩
  have hcnd : isDisposeEvent c = false := isDisposeEvent_completion doRep endTrialSupplied reps c hc
  have hrun' : runTrial doRep endTrialSupplied reps initState =
      Except.ok { toDispose := trialProduced doRep reps, times := [], clock := 0,
                  trace := trialEvents doRep reps ++ [c] } := by
    rw [hrun]
    simp [initState]
  have hw2 : runDispose { toDispose := trialProduced doRep reps,
                          times := ([] : List ℚ), clock := 0,
                          trace := trialEvents doRep reps ++ [c] } =
      ({ toDispose := [], times := [], clock := 0,
         trace := (trialEvents doRep reps ++ [c]) ++
           [HEvent.disposeSet (trialProduced doRep reps)] } : HState T) := rfl
  rcases timedLoop_spec doRep endTrialSupplied reps now flag h trials
      { toDispose := [], times := [], clock := 0,
        trace := (trialEvents doRep reps ++ [c]) ++
          [HEvent.disposeSet (trialProduced doRep reps)] } with
    ⟨stf, hloop, htimes, hclock, ⟨ext, htrace, hfil⟩, hdisp⟩
  have harg : (fun t => now (0 + 2 * t + 1) - now (0 + 2 * t)) =
      (fun t => now (2 * t + 1) - now (2 * t)) := by
    funext t
    rw [Nat.zero_add]
  refine ⟨{ final := stf, mean := sumTimes stf.times / (trials : ℚ),
            minTime := jsMin stf.times }, ?_, ?_, rfl, rfl, ?_, ?_⟩
  · unfold time
    rw [hrun']
    dsimp only
    rw [hw2, hloop]
  · rw [htimes]
    dsimp only
    rw [List.nil_append, harg]
  · exact ⟨c, ext, by rw [htrace], hcnd, hfil⟩
  · intro hF
    rw [hdisp hF]
    dsimp only
    rw [List.nil_append]

/-- Claim C4: for every completing `measure` call with `trialCount = N`
(`N >= 1`), the recorded duration list has exactly `N` entries, the
reported mean is `sum(durations)/N`, the reported minimum is the least
element of the duration list, and the minimum is at most the mean. -/
theorem measure_aggregate {T : Type} (doRep : Nat → RepResult T)
    (endTrialSupplied flag : Bool) (trials reps : Nat) (now : Nat → ℚ)
    (h : trialCompletes doRep endTrialSupplied reps) (htr : 1 ≤ trials) :
    ∃ out : TimeOutcome T,
      time doRep endTrialSupplied flag trials reps now = Except.ok out ∧
      out.final.times.length = trials ∧
      out.mean = sumTimes out.final.times / (trials : ℚ) ∧
      ∃ m, out.minTime = some m ∧ m ∈ out.final.times ∧
        (∀ x ∈ out.final.times, m ≤ x) ∧ m ≤ out.mean := by
  rcases time_spec doRep endTrialSupplied flag trials reps now h with
    ⟨out, hok, htimes, hmean, hmin, _, _⟩
  have hlen : out.final.times.length = trials := by
    rw [htimes, List.length_map, List.length_range]
  cases hT : out.final.times with
  | nil =>
      rw [hT] at hlen
      simp at hlen
      omega
  | cons x xs =>
      rcases jsMin_spec x xs with ⟨m, hjm, hmem, hle⟩
      refine ⟨out, hok, hlen, hmean, m, ?_, ?_, ?_, ?_⟩
      · rw [hmin, hT, hjm]
      · rw [hT]
        exact hmem
      · rw [hT]
        exact hle
      · have hpos : (0 : ℚ) < (trials : ℚ) := by
          exact_mod_cast Nat.lt_of_lt_of_le Nat.zero_lt_one htr
        rw [hmean, le_div_iff₀ hpos, hT]
        have hbound : (((x :: xs).length : ℚ)) * m ≤ sumTimes (x :: xs) :=
          length_mul_min_le_sumTimes (x :: xs) m hle
        have hlen' : (x :: xs).length = trials := by
          rw [← hT]
          exact hlen
        rw [hlen'] at hbound
        rw [mul_comm]
        exact hbound

/-- Per-rep work used by the harness witnesses: repetition `r` produces
the single-element output list `[r]`. -/
def exampleDoRep : Nat → RepResult Nat := fun r => RepResult.many [r]

/-- Clock used by the harness witnesses: the `k`-th read returns `k`. -/
def exampleNow : Nat → ℚ := fun k => (k : ℚ)

instance {T : Type} (doRep : Nat → RepResult T) (endTrialSupplied : Bool) (reps : Nat) :
    Decidable (trialCompletes doRep endTrialSupplied reps) :=
  inferInstanceAs (Decidable (endTrialSupplied = true ∨
    (jsFirstElem (lastResult doRep reps)).isSome = true))

/-- Witness for C4 at a concrete input: two timed trials of one
repetition each, no hook, no per-trial disposal. -/
theorem measure_aggregate_witness :
    ∃ out : TimeOutcome Nat,
      time exampleDoRep false false 2 1 exampleNow = Except.ok out ∧
      out.final.times.length = 2 ∧
      out.mean = sumTimes out.final.times / ((2 : Nat) : ℚ) ∧
      ∃ m, out.minTime = some m ∧ m ∈ out.final.times ∧
        (∀ x ∈ out.final.times, m ≤ x) ∧ m ≤ out.mean :=
  measure_aggregate exampleDoRep false false 2 1 exampleNow (by decide) (by decide)

/-- Claim C5: in every completing `measure` call exactly one warm-up trial
runs before the timed loop (the trace starts with one trial's events and
the disposal of exactly that trial's accumulated outputs, before any loop
event), the warm-up leaves the duration list empty and the accumulation
set empty, and every recorded duration is a timed-loop clock difference,
so the warm-up contributes to neither the mean nor the minimum. -/
theorem measure_warmup_once_untimed {T : Type} (doRep : Nat → RepResult T)
    (endTrialSupplied flag : Bool) (trials reps : Nat) (now : Nat → ℚ)
    (h : trialCompletes doRep endTrialSupplied reps) :
    ∃ out : TimeOutcome T,
      time doRep endTrialSupplied flag trials reps now = Except.ok out ∧
      (∃ stw, runTrial doRep endTrialSupplied reps initState = Except.ok stw ∧
        (runDispose stw).toDispose = [] ∧ (runDispose stw).times = []) ∧
      (∃ c ext, isDisposeEvent c = false ∧
        out.final.trace = ((trialEvents doRep reps ++ [c]) ++
          [HEvent.disposeSet (trialProduced doRep reps)]) ++ ext) ∧
      out.final.times =
        (List.range trials).map (fun t => now (2 * t + 1) - now (2 * t)) ∧
      out.final.times.length = trials ∧
      out.mean = sumTimes out.final.times / (trials : ℚ) ∧
      out.minTime = jsMin out.final.times := by
  rcases time_spec doRep endTrialSupplied flag trials reps now h with
    ⟨out, hok, htimes, hmean, hmin, ⟨c, ext, htrace, hcnd, _⟩, _⟩
  rcases runTrial_ok_of_completes doRep endTrialSupplied reps h initState with ⟨c0, hrun, _⟩
  refine ⟨out, hok, ⟨_, hrun, rfl, rfl⟩, ⟨c, ext, hcnd, htrace⟩, htimes, ?_, hmean, hmin⟩
  rw [htimes, List.length_map, List.length_range]

/-- Witness for C5 at a concrete input. -/
theorem measure_warmup_once_untimed_witness :
    ∃ out : TimeOutcome Nat,
      time exampleDoRep false false 2 1 exampleNow = Except.ok out ∧
      (∃ stw, runTrial exampleDoRep false 1 initState = Except.ok stw ∧
        (runDispose stw).toDispose = [] ∧ (runDispose stw).times = []) ∧
      (∃ c ext, isDisposeEvent c = false ∧
        out.final.trace = ((trialEvents exampleDoRep 1 ++ [c]) ++
          [HEvent.disposeSet (trialProduced exampleDoRep 1)]) ++ ext) ∧
      out.final.times =
        (List.range 2).map (fun t => exampleNow (2 * t + 1) - exampleNow (2 * t)) ∧
      out.final.times.length = 2 ∧
      out.mean = sumTimes out.final.times / ((2 : Nat) : ℚ) ∧
      out.minTime = jsMin out.final.times :=
  measure_warmup_once_untimed exampleDoRep false false 2 1 exampleNow (by decide)

/-- Claim C7: in every completing trial, `doRep` is invoked once per
repetition index `0, ..., reps - 1` in order, every produced output is
appended to the accumulation set, the duration list and the clock are
untouched, and the trial ends by awaiting the hook when one is supplied
and otherwise awaiting `data()` on the first element of the last
repetition's result (the result itself when it is a single tensor). -/
theorem trial_protocol {T : Type} (doRep : Nat → RepResult T)
    (endTrialSupplied : Bool) (reps : Nat) (st : HState T)
    (h : trialCompletes doRep endTrialSupplied reps) :
    ∃ st', runTrial doRep endTrialSupplied reps st = Except.ok st' ∧
      st'.toDispose = st.toDispose ++
        ((List.range reps).map (fun r => normalizeResult (doRep r))).flatten ∧
      st'.times = st.times ∧
      st'.clock = st.clock ∧
      ∃ c, st'.trace = st.trace ++
          (List.range reps).map (fun r => HEvent.repCall r (normalizeResult (doRep r))) ++ [c] ∧
        ((endTrialSupplied = true ∧ c = HEvent.awaitHook) ∨
         (endTrialSupplied = false ∧
          ∃ t, jsFirstElem (lastResult doRep reps) = some t ∧ c = HEvent.awaitData t)) := by
  rcases runTrial_ok_of_completes doRep endTrialSupplied reps h st with ⟨c, hrun, hc⟩
  exact ⟨_, hrun, rfl, rfl, rfl, c, rfl, hc⟩

/-- Witness for C7 at a concrete input: one repetition, no hook. -/
theorem trial_protocol_witness :
    ∃ st', runTrial exampleDoRep false 1 initState = Except.ok st' ∧
      st'.toDispose = (initState : HState Nat).toDispose ++
        ((List.range 1).map (fun r => normalizeResult (exampleDoRep r))).flatten ∧
      st'.times = (initState : HState Nat).times ∧
      st'.clock = (initState : HState Nat).clock ∧
      ∃ c, st'.trace = (initState : HState Nat).trace ++
          (List.range 1).map (fun r => HEvent.repCall r (normalizeResult (exampleDoRep r))) ++ [c] ∧
        ((false = true ∧ c = HEvent.awaitHook) ∨
         (false = false ∧
          ∃ t, jsFirstElem (lastResult exampleDoRep 1) = some t ∧ c = HEvent.awaitData t)) :=
  trial_protocol exampleDoRep false 1 initState (by decide)

/-- Claim C9: the default completion proxy is partial. A trial throws
exactly when no end-of-trial hook is supplied and the proxy finds no
element; the proxy finds no element when `reps = 0` (the local `result`
is still undefined) and when the last repetition returned an empty array;
and under the precondition that a hook is supplied or the proxy finds its
element, the trial completes normally. -/
theorem trial_default_proxy_partiality {T : Type} (doRep : Nat → RepResult T)
    (endTrialSupplied : Bool) (reps : Nat) (st : HState T) :
    ((∃ e, runTrial doRep endTrialSupplied reps st = Except.error e) ↔
      (endTrialSupplied = false ∧ jsFirstElem (lastResult doRep reps) = none)) ∧
    (reps = 0 → jsFirstElem (lastResult doRep reps) = none) ∧
    (∀ ts : List T, 1 ≤ reps → doRep (reps - 1) = RepResult.many ts → ts = [] →
      jsFirstElem (lastResult doRep reps) = none) ∧
    (trialCompletes doRep endTrialSupplied reps →
      ∃ st', runTrial doRep endTrialSupplied reps st = Except.ok st') := by
  refine ⟨?_, ?_, ?_, ?_⟩
  · cases hE : endTrialSupplied with
    | true =>
        simp [runTrial]
    | false =>
        cases hj : jsFirstElem (lastResult doRep reps) with
        | none => simp [runTrial, hj]
        | some t => simp [runTrial, hj]
  · intro h0
    rw [show lastResult doRep reps = none from by simp [lastResult, h0]]
    rfl
  · intro ts hr hts hnil
    have : lastResult doRep reps = some (RepResult.many ts) := by
      unfold lastResult
      rw [if_neg (by omega), hts]
    rw [this, hnil]
    rfl
  · intro h
    rcases runTrial_ok_of_completes doRep endTrialSupplied reps h st with ⟨c, hrun, _⟩
    exact ⟨_, hrun⟩

lemma flatten_replicate_succ {α : Type} (k : Nat) (p : List α) :
    (List.replicate (k + 1) p).flatten = (List.replicate k p).flatten ++ p := by
  rw [List.replicate_succ', List.flatten_append]
  simp

/-- Claim C10: in a completing `measure` call with `disposeAfterEachTrial`
false, the timed loop never disposes: the final accumulation set is the
concatenation of every timed trial's outputs, the only disposal in the
whole run is the warm-up one, the set after `k + 1` timed trials extends
the set after `k` timed trials, and the final set is non-empty whenever
at least one timed trial ran and produced an output. -/
theorem measure_no_dispose_accumulates {T : Type} (doRep : Nat → RepResult T)
    (endTrialSupplied : Bool) (trials reps : Nat) (now : Nat → ℚ)
    (h : trialCompletes doRep endTrialSupplied reps) :
    ∃ out : TimeOutcome T,
      time doRep endTrialSupplied false trials reps now = Except.ok out ∧
      out.final.toDispose = (List.replicate trials (trialProduced doRep reps)).flatten ∧
      out.final.trace.filter (fun e => isDisposeEvent e) =
        [HEvent.disposeSet (trialProduced doRep reps)] ∧
      (∀ k : Nat, (List.replicate (k + 1) (trialProduced doRep reps)).flatten =
        (List.replicate k (trialProduced doRep reps)).flatten ++ trialProduced doRep reps) ∧
      (1 ≤ trials → trialProduced doRep reps ≠ [] → out.final.toDispose ≠ []) := by
  rcases time_spec doRep endTrialSupplied false trials reps now h with
    ⟨out, hok, _, _, _, ⟨c, ext, htrace, hcnd, hfil⟩, hdisp⟩
  have hset : out.final.toDispose = (List.replicate trials (trialProduced doRep reps)).flatten :=
    hdisp rfl
  refine ⟨out, hok, hset, ?_, fun k => flatten_replicate_succ k (trialProduced doRep reps), ?_⟩
  · rw [htrace, List.filter_append, List.filter_append, List.filter_append,
      filter_dispose_trialEvents, hfil rfl]
    simp [List.filter, hcnd]
    rfl
  · intro htr hne
    rw [hset]
    cases trials with
    | zero => omega
    | succ n =>
        rw [List.replicate_succ, List.flatten_cons]
        intro hcontra
        rcases List.append_eq_nil.mp hcontra with ⟨h1, _⟩
        exact hne h1

/-- Witness for C10 at a concrete input: two timed trials of one
repetition each, each producing one output. -/
theorem measure_no_dispose_accumulates_witness :
    ∃ out : TimeOutcome Nat,
      time exampleDoRep false false 2 1 exampleNow = Except.ok out ∧
      out.final.toDispose = (List.replicate 2 (trialProduced exampleDoRep 1)).flatten ∧
      out.final.trace.filter (fun e => isDisposeEvent e) =
        [HEvent.disposeSet (trialProduced exampleDoRep 1)] ∧
      (∀ k : Nat, (List.replicate (k + 1) (trialProduced exampleDoRep 1)).flatten =
        (List.replicate k (trialProduced exampleDoRep 1)).flatten ++ trialProduced exampleDoRep 1) ∧
      (1 ≤ 2 → trialProduced exampleDoRep 1 ≠ [] → out.final.toDispose ≠ []) :=
  measure_no_dispose_accumulates exampleDoRep false 2 1 exampleNow (by decide)
